import Mathlib

set_option linter.unusedVariables false

/-!
# Verification of the openglobus vector-layer spatial index (`src/og/layer/vector.js`)

This file gives a shallow embedding of `og.layer.Vector` — the per-layer
spatial-index orchestrator — and proves/refutes the claims about it.

Coordinates are modelled as exact rationals (the JS code only compares and
copies them; no floating-point rounding is exercised by the claims).

JS `undefined`-property-access errors are modelled by an `Except` result:
a member access on a value that is `undefined` throws a `TypeError`.
-/

namespace Og

/-- Geodetic longitude/latitude pair in degrees (`og.LonLat`). -/
structure LonLat where
  lon : ℚ
  lat : ℚ
deriving DecidableEq, Repr

/-- Axis-aligned lon/lat bounding rectangle (`og.Extent`). -/
structure Extent where
  southWest : LonLat
  northEast : LonLat
deriving DecidableEq, Repr

/-- The degenerate initial extent set by `_buildEntityCollectionsTree`:
`new og.Extent(new og.LonLat(180, 90), new og.LonLat(-180, -90))`. -/
def initExtent : Extent :=
  { southWest := ⟨180, 90⟩, northEast := ⟨-180, -90⟩ }

/-- `og.mercator.MAX_LAT`, the northern edge of the Web-Mercator band.
Modelled from the spec: the `og.mercator` module is not under `src/`; the
spec gives the Mercator-valid band as `±85.0511°`.  The exact value is
irrelevant to every claim; only `MIN_LAT = -MAX_LAT < MAX_LAT` matters. -/
def MAX_LAT : ℚ := 850511287798066 / 10000000000000

/-- `og.mercator.MIN_LAT`, the southern edge of the Web-Mercator band. -/
def MIN_LAT : ℚ := -MAX_LAT

/-- A cartesian position (`entity._cartesian`); only its presence matters
here (it is consumed by the external ellipsoid collaborator). -/
structure Cart where
  x : ℚ
  y : ℚ
  z : ℚ
deriving DecidableEq, Repr

/-- The slice of `og.Entity` state that `vector.js` reads and writes. -/
structure Entity where
  /-- `entity.id` — entity identity. -/
  id : ℕ
  /-- `entity.lineString` — truthy for exempt (always-collection) entities. -/
  lineString : Bool
  /-- `entity._lonlat` — geodetic position; `none` models JS `null`/absent. -/
  lonlat : Option LonLat
  /-- `entity._cartesian` — cartesian position if present. -/
  cartesian : Option Cart
  /-- Truthiness of `entity._vectorLayer` (owned by some vector layer). -/
  vectorLayer : Bool
  /-- Truthiness of `entity._entityCollection` (owned by some collection). -/
  entityCollection : Bool
  /-- `entity._vectorLayerIndex`. -/
  vectorLayerIndex : ℤ
deriving DecidableEq, Repr

/-- Which of the three quad-tree forests an entity is routed to. -/
inductive TreeId where
  | merc
  | north
  | south
deriving DecidableEq, Repr

/-- Events dispatched by the layer that the claims mention. -/
inductive Ev where
  | entityadd (id : ℕ)
  | entityremove (id : ℕ)
deriving DecidableEq, Repr

/-- JS runtime errors surfaced by the embedding. -/
inductive JsErr where
  /-- A property access on `undefined` (e.g. `this.layer._planet` where
  `this.layer` is `undefined`). -/
  | typeError
deriving DecidableEq, Repr

/-- The slice of `og.layer.Vector` state that the claims are about.  The
three quad-tree roots are represented by their insertion logs: the
`QuadNode.insertEntity` / `buildTree` internals live in
`og.quadTree.EntityCollectionQuadNode`, which is not part of this layer;
at this layer's level what is observable is which root receives which
entity, which is what the logs record. -/
structure VectorLayer where
  /-- `this._entities` — the flat entity list. -/
  entities : List Entity
  /-- Contents of `this._entityCollectionAlways` (the always-collection). -/
  always : List Entity
  /-- Entities handed to `this._entityCollectionsTree.insertEntity`. -/
  treeMerc : List Entity
  /-- Entities handed to `this._entityCollectionsTreeNorth.insertEntity`. -/
  treeNorth : List Entity
  /-- Entities handed to `this._entityCollectionsTreeSouth.insertEntity`. -/
  treeSouth : List Entity
  /-- `this._extent`. -/
  extent : Extent
  /-- Truthiness of `this._planet` (attached rendering context). -/
  hasPlanet : Bool
deriving DecidableEq, Repr

/-- Project a tree log out of the layer by tree identity. -/
def VectorLayer.tree (L : VectorLayer) : TreeId → List Entity
  | .merc => L.treeMerc
  | .north => L.treeNorth
  | .south => L.treeSouth

/-- `og.layer.Vector.prototype._fitExtent`: grow the extent to cover the
entity's lon/lat (four independent comparisons, exactly as in the source). -/
def fitExtent (E : Extent) (ll : LonLat) : Extent :=
  let E := if ll.lon > E.northEast.lon then
    { E with northEast := { E.northEast with lon := ll.lon } } else E
  let E := if ll.lat > E.northEast.lat then
    { E with northEast := { E.northEast with lat := ll.lat } } else E
  let E := if ll.lon < E.southWest.lon then
    { E with southWest := { E.southWest with lon := ll.lon } } else E
  let E := if ll.lat < E.southWest.lat then
    { E with southWest := { E.southWest with lat := ll.lat } } else E
  E

/-- Which tree root `add` routes a latitude to:
`lat > MAX_LAT` → north pole tree, `lat < MIN_LAT` → south pole tree,
otherwise (both boundaries included) → Mercator tree. -/
def routeTree (lat : ℚ) : TreeId :=
  if lat > MAX_LAT then .north
  else if lat < MIN_LAT then .south
  else .merc

/-- Modelled from the spec: `og.EntityCollection.add` is not under `src/`;
the spec describes a collection as an insertion-order-irrelevant set of
entities each owned by exactly one collection, so adding is a no-op when
the entity is already a member (by identity). -/
def ecAdd (coll : List Entity) (e : Entity) : List Entity :=
  if coll.any (fun x => x.id = e.id) then coll else coll ++ [e]

/-- `og.layer.Vector.prototype.add`.  Returns the updated layer together
with the list of events dispatched during the call, or a thrown JS error.

Faithful to the source, including its line 200:
`entity._lonlat = this.layer._planet.ellipsoid.cartesianToLonLat(...)` —
the layer object has no `layer` property (neither the `Vector` constructor
nor the `Layer` base described by the spec defines one), so `this.layer`
is `undefined` and the `._planet` access throws a `TypeError`. -/
def add (L : VectorLayer) (e : Entity) (rightNow : Bool) :
    Except JsErr (VectorLayer × List Ev) :=
  if e.vectorLayer || e.entityCollection then
    .ok (L, [])
  else
    let e := { e with vectorLayer := true,
                      vectorLayerIndex := (L.entities.length : ℤ) }
    let L := { L with entities := L.entities ++ [e] }
    if e.lineString then
      .ok ({ L with always := ecAdd L.always e }, [.entityadd e.id])
    else if L.hasPlanet then
      match e.lonlat with
      | none =>
        -- `this.layer` is undefined: `this.layer._planet` throws.
        .error .typeError
      | some ll =>
        let L := { L with extent := fitExtent L.extent ll }
        let L :=
          if ll.lat > MAX_LAT then
            { L with treeNorth := L.treeNorth ++ [e] }
          else if ll.lat < MIN_LAT then
            { L with treeSouth := L.treeSouth ++ [e] }
          else
            { L with treeMerc := L.treeMerc ++ [e] }
        .ok (L, [.entityadd e.id])
    else
      .ok (L, [.entityadd e.id])

/-- The ownership marking `add` performs on a fresh entity:
`entity._vectorLayer = this; entity._vectorLayerIndex = this._entities.length`. -/
def markAdded (L : VectorLayer) (e : Entity) : Entity :=
  { e with vectorLayer := true, vectorLayerIndex := (L.entities.length : ℤ) }

/-- A fresh layer with an attached rendering context and no entities
(the state right after construction plus `addTo(planet)`). -/
def freshLayer : VectorLayer :=
  { entities := [], always := [], treeMerc := [], treeNorth := [],
    treeSouth := [], extent := initExtent, hasPlanet := true }

/-- A sample non-exempt entity with a cartesian position but no geodetic
position — the input that exercises the lon/lat-derivation path of `add`. -/
def cartOnlyEntity : Entity :=
  { id := 1, lineString := false, lonlat := none,
    cartesian := some ⟨1, 2, 3⟩, vectorLayer := false,
    entityCollection := false, vectorLayerIndex := -1 }

/-! ## Bulk rebuild: `setEntities`, `clear`, `_buildEntityCollectionsTree` -/

/-- `og.layer.Vector.prototype.clear` — the body of the source function is
an empty `//TODO` stub, so it changes nothing. -/
def clear (L : VectorLayer) : VectorLayer := L

/-- Modelled from the spec: `QuadNode.buildTree` lives in
`og.quadTree.EntityCollectionQuadNode`, not under `src/`; the spec says the
bulk build partitions the input by latitude and each root keeps its own
latitude partition. -/
def bulkPartition (t : TreeId) (es : List Entity) : List Entity :=
  es.filter (fun e =>
    match e.lonlat with
    | some ll => routeTree ll.lat = t
    | none => false)

/-- `og.layer.Vector.prototype._buildEntityCollectionsTree`: resets the
extent; when a planet is attached, creates three fresh tree roots, sends
every `lineString` entity to the always-collection and bulk-builds the
trees from the remaining entities. -/
def buildEntityCollectionsTree (L : VectorLayer) : VectorLayer :=
  let L := { L with extent := initExtent }
  if L.hasPlanet then
    let linePart := L.entities.filter (fun e => e.lineString)
    let treePart := L.entities.filter (fun e => !e.lineString)
    { L with always := linePart.foldl ecAdd L.always,
             treeMerc := bulkPartition .merc treePart,
             treeNorth := bulkPartition .north treePart,
             treeSouth := bulkPartition .south treePart }
  else L

/-- `og.layer.Vector.prototype.setEntities`: calls `clear()` (a TODO stub),
replaces the flat list, marks ownership on each not-yet-owned entry, and
rebuilds the collection trees. -/
def setEntities (L : VectorLayer) (es : List Entity) : VectorLayer :=
  let L := clear L
  let marked := es.mapIdx (fun i ei =>
    if !ei.vectorLayer then
      { ei with vectorLayer := true, vectorLayerIndex := (i : ℤ) }
    else ei)
  let L := { L with entities := marked }
  buildEntityCollectionsTree L

/-! ## The per-frame visible-collections query -/

/-- The state read by `_collectVisibleCollections`.  The three tree walks
(`collectRenderCollections` / `...PASS2`) live in the quad-tree node class,
not under `src/`; modelled from the spec, their net effect is to append the
visible materialized collections of each tree, recorded here as the three
output lists. -/
structure CollectState where
  /-- `this.minZoom`. -/
  minZoom : ℤ
  /-- `this.maxZoom`. -/
  maxZoom : ℤ
  /-- `this._planet.maxCurrZoom`. -/
  maxCurrZoom : ℤ
  /-- Identity of `this._entityCollectionAlways`. -/
  alwaysColl : ℕ
  /-- Collections appended by the Mercator-tree walk. -/
  mercOut : List ℕ
  /-- Collections appended by the north-tree walk. -/
  northOut : List ℕ
  /-- Collections appended by the south-tree walk. -/
  southOut : List ℕ
deriving DecidableEq, Repr

/-- `og.layer.Vector.prototype._collectVisibleCollections`: the whole body
is guarded by `minZoom <= maxCurrZoom && maxZoom >= maxCurrZoom`; inside,
the always-collection is pushed first, then the three tree walks append
their collections. -/
def collectVisibleCollections (S : CollectState) (outArr : List ℕ) :
    List ℕ :=
  if S.minZoom ≤ S.maxCurrZoom ∧ S.maxZoom ≥ S.maxCurrZoom then
    (((outArr ++ [S.alwaysColl]) ++ S.mercOut) ++ S.northOut) ++ S.southOut
  else outArr

/-! ## The deferred-build scheduler -/

/-- The per-node flags the scheduler reads and writes. -/
structure SNode where
  /-- `node._inTheQueue`. -/
  inTheQueue : Bool
  /-- Result of `node.isVisible()` (visibility is decided by the renderer;
  it is independent of the scheduler flags). -/
  visible : Bool
deriving DecidableEq, Repr

/-- Scheduler state carried by the layer: the layer visibility flag, the
in-flight counter, the pending backlog (node ids; `push` appends at the
tail and `pop` removes from the tail — modelled from the spec:
`og.QueueArray` is not under `src/` and the spec fixes the backlog
discipline as last-in-first-out), and the node store. -/
structure Sched where
  /-- `this._visibility`. -/
  visibility : Bool
  /-- `this._counter`. -/
  counter : ℤ
  /-- `this._deferredEntitiesPendingQueue` contents, oldest first. -/
  pending : List ℕ
  /-- Node store; backlog entries are indices into it. -/
  nodes : List SNode
deriving DecidableEq, Repr

/-- Write a node's `_inTheQueue` flag (no-op on an invalid id, like a JS
write to a missing object would not be — valid ids are a hypothesis where
it matters). -/
def setInQueue (nodes : List SNode) (i : ℕ) (b : Bool) : List SNode :=
  match nodes[i]? with
  | some nd => nodes.set i { nd with inTheQueue := b }
  | none => nodes

/-- Read `node.isVisible()` from the store. -/
def isVisible (nodes : List SNode) (i : ℕ) : Bool :=
  match nodes[i]? with
  | some nd => nd.visible
  | none => false

/-- Read `node._inTheQueue` from the store. -/
def getInQueue (nodes : List SNode) (i : ℕ) : Bool :=
  match nodes[i]? with
  | some nd => nd.inTheQueue
  | none => false

/-- Core loop of `_whilePendings`, processing the backlog starting at the
most recently pushed entry (the argument list is the backlog reversed):
pop, clear the popped node's `_inTheQueue`, return it if visible, else
keep scanning. -/
def whilePendingsAux (nodes : List SNode) :
    List ℕ → List SNode × List ℕ × Option ℕ
  | [] => (nodes, [], none)
  | i :: rest =>
    let nodes := setInQueue nodes i false
    if isVisible nodes i then (nodes, rest, some i)
    else whilePendingsAux nodes rest

/-- `og.layer.Vector.prototype._whilePendings`. -/
def whilePendings (S : Sched) : Sched × Option ℕ :=
  let r := whilePendingsAux S.nodes S.pending.reverse
  ({ S with nodes := r.1, pending := r.2.1.reverse }, r.2.2)

/-- `og.layer.Vector.prototype._execDeferredNode`: increments the in-flight
counter and schedules `node.applyCollection()` plus `_dequeueRequest()` on
a future tick; the outstanding tick is tracked by the counter itself and
fires as the `complete` step of `SchedStep`. -/
def execDeferredNode (S : Sched) (i : ℕ) : Sched :=
  { S with counter := S.counter + 1 }

/-- `og.layer.Vector.prototype._dequeueRequest` (the completion handler
body after `applyCollection`): decrement the counter and, if the backlog
is non-empty and nothing is in flight, drain for the next visible node and
execute it. -/
def dequeueRequest (S : Sched) : Sched :=
  let S := { S with counter := S.counter - 1 }
  if S.pending.length ≠ 0 ∧ S.counter < 1 then
    match whilePendings S with
    | (S', some i) => execDeferredNode S' i
    | (S', none) => S'
  else S

/-- `og.layer.Vector.prototype._queueDeferredNode`: only acts when the
layer is visible; marks the node as in-queue, then either backlogs it (a
build is already in flight) or executes it. -/
def queueDeferredNode (S : Sched) (i : ℕ) : Sched :=
  if S.visibility then
    let S := { S with nodes := setInQueue S.nodes i true }
    if S.counter ≥ 1 then { S with pending := S.pending ++ [i] }
    else execDeferredNode S i
  else S

/-- The scheduler's atomic steps: an enqueue request for some node, or the
firing of an outstanding deferred-build tick (`applyCollection` touches
only quad-tree node buffers, then `_dequeueRequest` runs).  A tick can only
fire while a build is in flight. -/
inductive SchedStep : Sched → Sched → Prop
  | queue (S : Sched) (i : ℕ) : SchedStep S (queueDeferredNode S i)
  | complete (S : Sched) : 1 ≤ S.counter → SchedStep S (dequeueRequest S)

/-- Scheduler state right after layer construction: `this._counter = 0`
and an empty backlog. -/
def initSched (vis : Bool) (nodes : List SNode) : Sched :=
  { visibility := vis, counter := 0, pending := [], nodes := nodes }

/-- Clear the `_inTheQueue` flag of every listed node, in order. -/
def clearFlags (nodes : List SNode) (ids : List ℕ) : List SNode :=
  ids.foldl (fun ns i => setInQueue ns i false) nodes

/-- The drain scan's skip test: a backlog entry is skipped while it is not
visible. -/
def pendingPred (S : Sched) : ℕ → Bool :=
  fun i => !(isVisible S.nodes i)

/-- The backlog entries `_whilePendings` pops, most recent first: the
invisible entries it skips, then the visible one it returns (if any). -/
def poppedList (S : Sched) : List ℕ :=
  S.pending.reverse.takeWhile (pendingPred S) ++
    ((S.pending.reverse.dropWhile (pendingPred S)).head?).toList

/-- The backlog entries that survive the drain (still newest-first). -/
def drainRest (S : Sched) : List ℕ :=
  (S.pending.reverse.dropWhile (pendingPred S)).drop 1

/-- The node `_whilePendings` returns: the most recently pushed backlog
entry that is visible. -/
def drainResult (S : Sched) : Option ℕ :=
  (S.pending.reverse.dropWhile (pendingPred S)).head?

/-- The layer state produced by adding a fresh `lineString` entity: flat
list and always-collection extended, everything else untouched. -/
def addLineStringResult (L : VectorLayer) (e : Entity) : VectorLayer :=
  { L with
      entities := L.entities ++ [markAdded L e],
      always := ecAdd L.always (markAdded L e) }

/-- A concrete fresh non-exempt entity at longitude 10, latitude 20. -/
def extentEntity : Entity :=
  { id := 3, lineString := false, lonlat := some ⟨10, 20⟩,
    cartesian := none, vectorLayer := false, entityCollection := false,
    vectorLayerIndex := -1 }

/-- A concrete scheduler state: two backlog entries, the most recently
pushed one (node 0) invisible, the older one (node 1) visible. -/
def sampleSched : Sched :=
  { visibility := true, counter := 1, pending := [1, 0],
    nodes := [⟨true, false⟩, ⟨true, true⟩] }

/-! ## Entity removal -/

/-- The slice of quad-tree node state that `removeEntity` touches:
`count`, the `deferredEntities` buffer (entity ids), the parent pointer,
and whether a collection is materialized. -/
structure QNode where
  /-- `node.count`. -/
  count : ℤ
  /-- Ids of the entities in `node.deferredEntities`. -/
  deferredEntities : List ℕ
  /-- `node.parentNode` as an index into the node store. -/
  parentNode : Option ℕ
  /-- Truthiness of `node.entityCollection`. -/
  hasCollection : Bool
deriving DecidableEq, Repr

/-- The slice of an entity's state that `removeEntity` reads. -/
structure RemEntity where
  /-- `entity.id`. -/
  id : ℕ
  /-- `entity._vectorLayer && this.isEqual(entity._vectorLayer)`. -/
  ownedByThisLayer : Bool
  /-- `entity._vectorLayerIndex`. -/
  vectorLayerIndex : ℕ
  /-- Truthiness of `entity._entityCollection`. -/
  inEntityCollection : Bool
  /-- `entity._nodePtr` as an index into the node store. -/
  nodePtr : Option ℕ
deriving DecidableEq, Repr

/-- Layer state touched by `removeEntity`: the flat list (ids) and the
node store. -/
structure RemState where
  /-- Ids of `this._entities`, in order. -/
  entityIds : List ℕ
  /-- The quad-tree node store; `parentNode`/`_nodePtr` are indices. -/
  nodes : List QNode
deriving DecidableEq, Repr

/-- The `while (node) { node.count--; node = node.parentNode; }` loop:
decrement `count` at the node and every ancestor.  Fuel bounds the walk;
well-formed parent pointers (strictly decreasing indices) make any fuel
above the start index sufficient. -/
def decChain (nodes : List QNode) : Option ℕ → ℕ → List QNode
  | none, _ => nodes
  | some _, 0 => nodes
  | some i, fuel + 1 =>
    match nodes[i]? with
    | none => nodes
    | some nd =>
      decChain (nodes.set i { nd with count := nd.count - 1 }) nd.parentNode
        fuel

/-- The node indices the ancestor walk visits, starting at a node. -/
def chainList (nodes : List QNode) : Option ℕ → ℕ → List ℕ
  | none, _ => []
  | some _, 0 => []
  | some i, fuel + 1 =>
    match nodes[i]? with
    | none => []
    | some nd => i :: chainList nodes nd.parentNode fuel

/-- Remove the first occurrence of `x`; `none` when absent. -/
def removeFirst : List ℕ → ℕ → Option (List ℕ)
  | [], _ => none
  | y :: ys, x =>
    if y = x then some ys else (removeFirst ys x).map (fun l => y :: l)

/-- The `while (j--) ... splice(j, 1) ... break` scan of
`deferredEntities`: remove the last element whose id matches. -/
def removeLast (l : List ℕ) (x : ℕ) : Option (List ℕ) :=
  (removeFirst l.reverse x).map List.reverse

/-- `Array.prototype.splice(i, 1)` on the flat list. -/
def spliceAt (l : List ℕ) (i : ℕ) : List ℕ :=
  l.take i ++ l.drop (i + 1)

/-- Parent pointers are well-formed: every parent index is strictly below
its child's index (roots are created first, children later). -/
def wfParents (nodes : List QNode) : Prop :=
  ∀ (j : ℕ) (nd : QNode) (p : ℕ),
    nodes[j]? = some nd → nd.parentNode = some p → p < j

/-- `og.layer.Vector.prototype.removeEntity`.  A no-op when the entity is
not owned by this layer; otherwise splices the flat list, then either
removes from the materialized collection (decrementing ancestor counts and
possibly dropping an empty collection handle) or cancels the entity out of
its node's `deferredEntities` buffer (decrementing ancestor counts the
same way).  Collection membership lists are not part of `RemState`; the
materialized branch's collection effects beyond the node store are
external to it. -/
def removeEntity (S : RemState) (e : RemEntity) : RemState :=
  if e.ownedByThisLayer then
    let S := { S with entityIds := spliceAt S.entityIds e.vectorLayerIndex }
    if e.inEntityCollection then
      let nodes := decChain S.nodes e.nodePtr S.nodes.length
      match e.nodePtr with
      | some i =>
        match nodes[i]? with
        | some nd =>
          if nd.count = 0 ∧ nd.deferredEntities.length = 0 then
            { S with nodes := nodes.set i { nd with hasCollection := false } }
          else { S with nodes := nodes }
        | none => { S with nodes := nodes }
      | none => { S with nodes := nodes }
    else
      match e.nodePtr with
      | some i =>
        match S.nodes[i]? with
        | some nd =>
          if nd.deferredEntities.length ≠ 0 then
            match removeLast nd.deferredEntities e.id with
            | some buf =>
              let nodes := S.nodes.set i { nd with deferredEntities := buf }
              { S with nodes := decChain nodes (some i) nodes.length }
            | none => S
          else S
        | none => S
      | none => S
  else S

/-- Modelled from the spec: `QuadNode.applyCollection` (not under `src/`)
materializes the node's `deferredEntities` buffer into its
EntityCollection; the ids of the resulting collection are the buffer ids. -/
def applyCollectionIds (nd : QNode) : List ℕ :=
  nd.deferredEntities

/-! ## Extent bookkeeping for sequences of adds -/

/-- Run a sequence of `add` calls (the `rightNow` flag does not influence
any state recorded here). -/
def addAll (L : VectorLayer) : List Entity → Except JsErr VectorLayer
  | [] => .ok L
  | e :: rest =>
    match add L e false with
    | .ok (L', _) => addAll L' rest
    | .error err => .error err

/-- The entities of a sequence that `add` actually routes into a tree
(fresh and non-exempt), projected to their geodetic positions. -/
def nonExemptLLs (es : List Entity) : List LonLat :=
  (es.filter (fun e =>
    !e.vectorLayer && !e.entityCollection && !e.lineString)).filterMap
    (fun e => e.lonlat)

/-- A geodetic position within the coordinate ranges. -/
def validLL (ll : LonLat) : Prop :=
  -180 ≤ ll.lon ∧ ll.lon ≤ 180 ∧ -90 ≤ ll.lat ∧ ll.lat ≤ 90

/-- Component-wise bounding rectangle of a non-empty list of positions. -/
def boundingRect (ll : LonLat) (rest : List LonLat) : Extent :=
  { southWest := ⟨(rest.map (fun p => p.lon)).foldl min ll.lon,
                  (rest.map (fun p => p.lat)).foldl min ll.lat⟩,
    northEast := ⟨(rest.map (fun p => p.lon)).foldl max ll.lon,
                  (rest.map (fun p => p.lat)).foldl max ll.lat⟩ }

/-- Rectangle containment: every point of the second extent lies in the
first. -/
def extentContains (big small : Extent) : Prop :=
  big.southWest.lon ≤ small.southWest.lon ∧
  big.southWest.lat ≤ small.southWest.lat ∧
  small.northEast.lon ≤ big.northEast.lon ∧
  small.northEast.lat ≤ big.northEast.lat

/-- An exempt (`lineString`) entity as it sits in the always-collection
after an earlier `add`: owned and collection-attached. -/
def staleLineEntity : Entity :=
  { id := 1, lineString := true, lonlat := none, cartesian := none,
    vectorLayer := true, entityCollection := true, vectorLayerIndex := 0 }

/-- A planet-attached layer that currently owns `staleLineEntity` (flat
list and always-collection both hold it). -/
def layerWithStale : VectorLayer :=
  { entities := [staleLineEntity], always := [staleLineEntity],
    treeMerc := [], treeNorth := [], treeSouth := [],
    extent := initExtent, hasPlanet := true }

/-- The fresh entity list handed to `setEntities`. -/
def replacementEntity : Entity :=
  { id := 2, lineString := false, lonlat := some ⟨0, 0⟩, cartesian := none,
    vectorLayer := false, entityCollection := false, vectorLayerIndex := -1 }

/-- A concrete `_collectVisibleCollections` state whose camera zoom is
below the layer's `minZoom`. -/
def zoomedOutState : CollectState :=
  { minZoom := 1, maxZoom := 50, maxCurrZoom := 0, alwaysColl := 7,
    mercOut := [], northOut := [], southOut := [] }

/-- A concrete root node with one entity counted in its subtree. -/
def remNodeRoot : QNode :=
  { count := 1, deferredEntities := [], parentNode := none,
    hasCollection := false }

/-- A concrete child node buffering entity 5, not yet materialized. -/
def remNodeChild : QNode :=
  { count := 1, deferredEntities := [5], parentNode := some 0,
    hasCollection := false }

/-- A concrete removal state: entity 5 sits only in the child's buffer. -/
def remSample : RemState :=
  { entityIds := [5], nodes := [remNodeRoot, remNodeChild] }

/-- Entity 5 as `removeEntity` sees it: owned, never materialized,
pointing at the child node. -/
def remEntitySample : RemEntity :=
  { id := 5, ownedByThisLayer := true, vectorLayerIndex := 0,
    inEntityCollection := false, nodePtr := some 1 }

theorem MIN_LAT_lt_MAX_LAT : MIN_LAT < MAX_LAT := by
  unfold MIN_LAT MAX_LAT; norm_num

theorem routeTree_MAX : routeTree MAX_LAT = .merc := by
  unfold routeTree
  rw [if_neg (lt_irrefl MAX_LAT), if_neg (not_lt.mpr MIN_LAT_lt_MAX_LAT.le)]

theorem routeTree_MIN : routeTree MIN_LAT = .merc := by
  unfold routeTree
  rw [if_neg (not_lt.mpr MIN_LAT_lt_MAX_LAT.le), if_neg (lt_irrefl MIN_LAT)]

end Og

open Og

/-- C2: the claim says that for a non-exempt entity with a cartesian but no
geodetic position, `add` on a planet-attached layer derives the lon/lat via
the ellipsoid and completes the insertion without raising.  The code instead
reads `this.layer._planet` (vector.js line 200), and the layer has no
`layer` property, so the access throws a `TypeError` before any routing
happens.  This theorem evaluates the embedded code at that failing input. -/
theorem C2_add_cartesian_only_throws :
    add freshLayer cartOnlyEntity false = .error .typeError := by
  rfl

/-- C4: a non-exempt, fresh entity added to a planet-attached layer is
routed to exactly one tree, chosen by `routeTree` on its latitude: strictly
above `MAX_LAT` → PolarNorth, strictly below `MIN_LAT` → PolarSouth,
otherwise the Mercator tree — and both band boundaries route to Mercator.
The other two trees are untouched. -/
theorem C4_band_partition (L : VectorLayer) (e : Entity) (rightNow : Bool)
    (ll : LonLat)
    (hv : e.vectorLayer = false) (hc : e.entityCollection = false)
    (hls : e.lineString = false) (hll : e.lonlat = some ll)
    (hp : L.hasPlanet = true) :
    (∃ L', add L e rightNow = .ok (L', [.entityadd e.id]) ∧
      L'.tree (routeTree ll.lat) =
        L.tree (routeTree ll.lat) ++ [markAdded L e] ∧
      (∀ t, t ≠ routeTree ll.lat → L'.tree t = L.tree t)) ∧
    routeTree MAX_LAT = .merc ∧ routeTree MIN_LAT = .merc := by
  refine ⟨?_, routeTree_MAX, routeTree_MIN⟩
  unfold add markAdded
  rw [hv, hc, hls, hll]
  simp only [Bool.or_self, Bool.false_eq_true, if_false, hp, if_true]
  unfold routeTree
  split_ifs with h1 h2
  · exact ⟨_, rfl, by simp [VectorLayer.tree],
      fun t ht => by cases t <;> simp_all [VectorLayer.tree]⟩
  · exact ⟨_, rfl, by simp [VectorLayer.tree],
      fun t ht => by cases t <;> simp_all [VectorLayer.tree]⟩
  · exact ⟨_, rfl, by simp [VectorLayer.tree],
      fun t ht => by cases t <;> simp_all [VectorLayer.tree]⟩

/-- Witness for C4 at a concrete input: a fresh entity at lat 10 lands in
the Mercator tree. -/
theorem C4_band_partition_witness :
    (∃ L', add freshLayer
        { cartOnlyEntity with lonlat := some ⟨0, 10⟩ } false =
          .ok (L', [.entityadd 1]) ∧
      L'.tree (routeTree 10) =
        freshLayer.tree (routeTree 10) ++
          [markAdded freshLayer { cartOnlyEntity with lonlat := some ⟨0, 10⟩ }] ∧
      (∀ t, t ≠ routeTree 10 → L'.tree t = freshLayer.tree t)) ∧
    routeTree MAX_LAT = .merc ∧ routeTree MIN_LAT = .merc := by
  have h := C4_band_partition freshLayer
    { cartOnlyEntity with lonlat := some ⟨0, 10⟩ } false ⟨0, 10⟩
    rfl rfl rfl rfl rfl
  exact h

/-- C9: adding an entity already owned (by a vector layer or by an entity
collection) is a no-op: the returned layer is the very same state — flat
list, trees, always-collection and extent all unchanged — and no event is
dispatched. -/
theorem C9_add_owned_noop (L : VectorLayer) (e : Entity) (rightNow : Bool)
    (h : e.vectorLayer = true ∨ e.entityCollection = true) :
    add L e rightNow = .ok (L, []) := by
  unfold add
  rcases h with h | h <;> simp [h]

/-- Witness for C9: a concrete already-owned entity is ignored by `add`. -/
theorem C9_add_owned_noop_witness :
    add freshLayer { cartOnlyEntity with vectorLayer := true } false =
      .ok (freshLayer, []) :=
  C9_add_owned_noop freshLayer { cartOnlyEntity with vectorLayer := true }
    false (Or.inl rfl)

/-- C1: the claim says `setEntities` rebuilds from empty, clearing the
three trees and the always-collection, so that no previously added entity
remains.  But `clear()` in the source is an empty `//TODO` stub: the
always-collection is never emptied, and an exempt entity added before the
call survives `setEntities` even though it is not in the new entity list.
This theorem evaluates the code at that failing input. -/
theorem C1_setEntities_stale_always_entity_remains :
    staleLineEntity ∈ (setEntities layerWithStale [replacementEntity]).always
      ∧ staleLineEntity ∉ [replacementEntity] := by
  constructor
  · show staleLineEntity ∈ (buildEntityCollectionsTree _).always
    simp [buildEntityCollectionsTree, setEntities, clear, layerWithStale,
      replacementEntity, staleLineEntity]
  · simp [staleLineEntity, replacementEntity]

/-- C3 counterexample: with the camera zoom outside the layer's
`[minZoom, maxZoom]` range, `_collectVisibleCollections` leaves the output
array untouched, so the always-collection is not included — refuting the
claim that it is included regardless of zoom. -/
theorem C3_counterexample_zoomed_out :
    zoomedOutState.alwaysColl ∉ collectVisibleCollections zoomedOutState [] := by
  decide

/-- C3 (amended): whenever the zoom guard passes — the layer's zoom range
contains the planet's current max zoom — the always-collection is included
in the output of `_collectVisibleCollections`. -/
theorem C3_always_included_in_zoom_range (S : CollectState) (outArr : List ℕ)
    (h1 : S.minZoom ≤ S.maxCurrZoom) (h2 : S.maxCurrZoom ≤ S.maxZoom) :
    S.alwaysColl ∈ collectVisibleCollections S outArr := by
  simp [collectVisibleCollections, h1, h2, ge_iff_le]

/-- Witness for C3 (amended) at a concrete in-range state. -/
theorem C3_always_included_in_zoom_range_witness :
    ({ zoomedOutState with maxCurrZoom := 3 } : CollectState).alwaysColl ∈
      collectVisibleCollections { zoomedOutState with maxCurrZoom := 3 } [] :=
  C3_always_included_in_zoom_range { zoomedOutState with maxCurrZoom := 3 } []
    (by decide) (by decide)

/-- `_queueDeferredNode` preserves the in-flight bound. -/
theorem queueDeferredNode_counter_le (S : Sched) (i : ℕ)
    (hc : S.counter ≤ 1) : (queueDeferredNode S i).counter ≤ 1 := by
  unfold queueDeferredNode execDeferredNode
  dsimp only
  split
  · split
    · exact hc
    · dsimp only
      omega
  · exact hc

/-- `_dequeueRequest` preserves the in-flight bound. -/
theorem dequeueRequest_counter_le (S : Sched)
    (hc : S.counter ≤ 1) : (dequeueRequest S).counter ≤ 1 := by
  unfold dequeueRequest
  dsimp only
  split
  · rcases hw : whilePendings { S with counter := S.counter - 1 } with ⟨S', o⟩
    have h2 : S.counter - 1 = S'.counter :=
      congrArg (fun p => p.1.counter) hw
    cases o with
    | some j =>
      dsimp only [execDeferredNode]
      omega
    | none =>
      dsimp only
      omega
  · dsimp only
    omega

/-- Any single scheduler step preserves the in-flight bound. -/
theorem schedStep_counter_le (S S' : Sched) (h : SchedStep S S')
    (hc : S.counter ≤ 1) : S'.counter ≤ 1 := by
  cases h with
  | queue i => exact queueDeferredNode_counter_le S i hc
  | complete hstep => exact dequeueRequest_counter_le S hc

/-- C5: from the freshly constructed scheduler state, any interleaving of
enqueue requests and deferred-build completions keeps the number of
in-flight `applyCollection` executions (the `_counter`) at most 1. -/
theorem C5_inflight_counter_bound (vis : Bool) (nodes : List SNode)
    (S : Sched)
    (h : Relation.ReflTransGen SchedStep (initSched vis nodes) S) :
    S.counter ≤ 1 := by
  induction h with
  | refl => simp [initSched]
  | tail hab hbc ih => exact schedStep_counter_le _ _ hbc ih

/-- Witness for C5 at the initial state itself. -/
theorem C5_inflight_counter_bound_witness :
    (initSched true []).counter ≤ 1 :=
  C5_inflight_counter_bound true [] (initSched true [])
    Relation.ReflTransGen.refl

/-- C10: when the layer's visibility flag is off, `_queueDeferredNode` is a
no-op — the whole scheduler state (node flags, backlog, counter) is
unchanged. -/
theorem C10_queue_invisible_noop (S : Sched) (i : ℕ)
    (h : S.visibility = false) : queueDeferredNode S i = S := by
  simp [queueDeferredNode, h]

/-- Witness for C10 on a concrete hidden-layer state. -/
theorem C10_queue_invisible_noop_witness :
    queueDeferredNode (initSched false [⟨false, true⟩]) 0 =
      initSched false [⟨false, true⟩] :=
  C10_queue_invisible_noop (initSched false [⟨false, true⟩]) 0 rfl

/-- Writing the `_inTheQueue` flag keeps the store size. -/
theorem length_setInQueue (nodes : List SNode) (i : ℕ) (b : Bool) :
    (setInQueue nodes i b).length = nodes.length := by
  unfold setInQueue
  cases h : nodes[i]? with
  | none => rfl
  | some nd => simp

/-- Writing the `_inTheQueue` flag does not change any node's visibility. -/
theorem isVisible_setInQueue (nodes : List SNode) (j i : ℕ) (b : Bool) :
    isVisible (setInQueue nodes j b) i = isVisible nodes i := by
  unfold setInQueue isVisible
  cases h : nodes[j]? with
  | none => rfl
  | some nd =>
    rcases eq_or_ne i j with rfl | hne
    · have hlt : i < nodes.length := by
        by_contra hge
        rw [List.getElem?_eq_none (le_of_not_lt hge)] at h
        exact Option.noConfusion h
      rw [List.getElem?_set_eq_of_lt _ hlt, h]
    · rw [List.getElem?_set_ne (fun hji => hne hji.symm)]

/-- Writing the flag at one id leaves every other id's entry unchanged. -/
theorem getElem?_setInQueue_ne (nodes : List SNode) (i j : ℕ) (b : Bool)
    (h : j ≠ i) : (setInQueue nodes i b)[j]? = nodes[j]? := by
  unfold setInQueue
  cases hi : nodes[i]? with
  | none => rfl
  | some nd => rw [List.getElem?_set_ne (fun hij => h hij.symm)]

/-- After writing the flag at an in-range id, reading it gives the value
written. -/
theorem getInQueue_setInQueue_self (nodes : List SNode) (i : ℕ) (b : Bool)
    (h : i < nodes.length) : getInQueue (setInQueue nodes i b) i = b := by
  unfold setInQueue getInQueue
  cases hi : nodes[i]? with
  | none =>
    rw [List.getElem?_eq_none_iff] at hi
    omega
  | some nd => rw [List.getElem?_set_eq_of_lt _ h]

/-- Full characterization of the drain loop on the reversed backlog: the
flags of the skipped prefix and of the returned node are cleared, the rest
of the backlog is untouched, and the result is the first visible entry. -/
theorem whilePendingsAux_eq (l : List ℕ) : ∀ (nodes : List SNode),
    whilePendingsAux nodes l =
      (clearFlags nodes
        (l.takeWhile (fun i => !(isVisible nodes i)) ++
          ((l.dropWhile (fun i => !(isVisible nodes i))).head?).toList),
       (l.dropWhile (fun i => !(isVisible nodes i))).drop 1,
       (l.dropWhile (fun i => !(isVisible nodes i))).head?) := by
  induction l with
  | nil => intro nodes; simp [whilePendingsAux, clearFlags]
  | cons j rest ih =>
    intro nodes
    unfold whilePendingsAux
    dsimp only
    rw [isVisible_setInQueue]
    have hfn : (fun i => !(isVisible (setInQueue nodes j false) i)) =
        (fun i => !(isVisible nodes i)) :=
      funext fun i => by rw [isVisible_setInQueue]
    by_cases hv : isVisible nodes j
    · rw [if_pos hv]
      simp [List.takeWhile_cons, List.dropWhile_cons, hv, clearFlags]
    · rw [if_neg hv]
      rw [ih (setInQueue nodes j false), hfn]
      simp [List.takeWhile_cons, List.dropWhile_cons, hv, clearFlags]

/-- Clearing a batch of flags keeps the store size. -/
theorem length_clearFlags (ids : List ℕ) : ∀ (nodes : List SNode),
    (clearFlags nodes ids).length = nodes.length := by
  induction ids with
  | nil => intro nodes; rfl
  | cons j ids ih =>
    intro nodes
    show (clearFlags (setInQueue nodes j false) ids).length = _
    rw [ih, length_setInQueue]

/-- Ids outside the cleared batch keep their store entries. -/
theorem getElem?_clearFlags_not_mem (ids : List ℕ) : ∀ (nodes : List SNode)
    (i : ℕ), i ∉ ids → (clearFlags nodes ids)[i]? = nodes[i]? := by
  induction ids with
  | nil => intro nodes i _; rfl
  | cons j ids ih =>
    intro nodes i hi
    show (clearFlags (setInQueue nodes j false) ids)[i]? = _
    rw [ih _ _ (fun h => hi (List.mem_cons_of_mem _ h)),
      getElem?_setInQueue_ne _ _ _ _
        (fun h => hi (by rw [h]; exact List.mem_cons_self j ids))]

/-- Every in-range id in the cleared batch ends with its flag off. -/
theorem getInQueue_clearFlags_mem (ids : List ℕ) : ∀ (nodes : List SNode)
    (i : ℕ), i ∈ ids → i < nodes.length →
    getInQueue (clearFlags nodes ids) i = false := by
  induction ids with
  | nil => intro nodes i hi; exact absurd hi (List.not_mem_nil i)
  | cons j ids ih =>
    intro nodes i hi hlt
    show getInQueue (clearFlags (setInQueue nodes j false) ids) i = false
    by_cases hmem : i ∈ ids
    · exact ih _ _ hmem (by rw [length_setInQueue]; exact hlt)
    · have hij : i = j := by
        rcases List.mem_cons.mp hi with h | h
        · exact h
        · exact absurd h hmem
      subst hij
      unfold getInQueue
      rw [getElem?_clearFlags_not_mem _ _ _ hmem]
      have := getInQueue_setInQueue_self nodes i false hlt
      unfold getInQueue at this
      exact this

/-- The head of a `dropWhile` falsifies the predicate. -/
theorem head?_dropWhile_neg {α : Type} (p : α → Bool) (l : List α) :
    ∀ a, (l.dropWhile p).head? = some a → p a = false := by
  induction l with
  | nil => intro a h; exact Option.noConfusion h
  | cons x xs ih =>
    intro a h
    by_cases hx : p x
    · rw [List.dropWhile_cons_of_pos hx] at h
      exact ih a h
    · rw [List.dropWhile_cons_of_neg hx] at h
      cases h
      exact Bool.eq_false_iff.mpr hx

/-- Any list is its optional head followed by its tail. -/
theorem head?_toList_append_drop {α : Type} (l : List α) :
    l = l.head?.toList ++ l.drop 1 := by
  cases l <;> rfl

/-- C6: draining the pending backlog pops entries last-in-first-out,
clears each popped node's `_inTheQueue` flag, skips every popped node that
is not visible when dequeued, and returns the first visible popped node
(or nothing, leaving the backlog empty).  Entries below the returned one
stay in the backlog with their store entries untouched. -/
theorem C6_whilePendings_drain (S : Sched)
    (hval : ∀ i ∈ S.pending, i < S.nodes.length) :
    whilePendings S =
      ({ S with nodes := clearFlags S.nodes (poppedList S),
                pending := (drainRest S).reverse }, drainResult S) ∧
    (∀ i ∈ S.pending.reverse.takeWhile (pendingPred S),
        isVisible S.nodes i = false) ∧
    (∀ i, drainResult S = some i → isVisible S.nodes i = true) ∧
    (∀ i ∈ poppedList S,
        getInQueue (clearFlags S.nodes (poppedList S)) i = false) ∧
    (∀ i, i ∉ poppedList S →
        (clearFlags S.nodes (poppedList S))[i]? = S.nodes[i]?) ∧
    S.pending = (drainRest S).reverse ++ (poppedList S).reverse := by
  have hsub : ∀ i ∈ poppedList S, i ∈ S.pending := by
    intro i hi
    rcases List.mem_append.mp hi with h | h
    · exact List.mem_reverse.mp ((List.takeWhile_sublist _).mem h)
    · rcases hres : (S.pending.reverse.dropWhile (pendingPred S)).head? with _ | a
      · rw [hres] at h; exact absurd h (List.not_mem_nil i)
      · rw [hres] at h
        rcases List.mem_singleton.mp h with rfl
        exact List.mem_reverse.mp
          ((List.dropWhile_sublist _).mem (List.mem_of_mem_head? hres))
  refine ⟨?_, ?_, ?_, ?_, ?_, ?_⟩
  · unfold whilePendings
    rw [whilePendingsAux_eq]
    rfl
  · intro i hi
    have := List.mem_takeWhile_imp hi
    unfold pendingPred at this
    simpa using this
  · intro i hi
    have := head?_dropWhile_neg (pendingPred S) S.pending.reverse i hi
    unfold pendingPred at this
    simpa using this
  · intro i hi
    exact getInQueue_clearFlags_mem _ _ _ hi (hval i (hsub i hi))
  · intro i hi
    exact getElem?_clearFlags_not_mem _ _ _ hi
  · have hsplit : poppedList S ++ drainRest S = S.pending.reverse := by
      unfold poppedList drainRest
      rw [List.append_assoc, ← head?_toList_append_drop,
        List.takeWhile_append_dropWhile]
    calc S.pending = S.pending.reverse.reverse := (List.reverse_reverse _).symm
      _ = (poppedList S ++ drainRest S).reverse := by rw [hsplit]
      _ = (drainRest S).reverse ++ (poppedList S).reverse :=
            List.reverse_append _ _

/-- Witness for C6 on a two-node store: node 0 (popped first, invisible)
is skipped with its flag cleared; node 1 (visible) is returned. -/
theorem C6_whilePendings_drain_witness :
    (∀ i ∈ sampleSched.pending, i < sampleSched.nodes.length) ∧
    (whilePendings sampleSched =
      ({ sampleSched with
          nodes := clearFlags sampleSched.nodes (poppedList sampleSched),
          pending := (drainRest sampleSched).reverse },
        drainResult sampleSched) ∧
    (∀ i ∈ sampleSched.pending.reverse.takeWhile (pendingPred sampleSched),
        isVisible sampleSched.nodes i = false) ∧
    (∀ i, drainResult sampleSched = some i →
        isVisible sampleSched.nodes i = true) ∧
    (∀ i ∈ poppedList sampleSched,
        getInQueue (clearFlags sampleSched.nodes (poppedList sampleSched)) i
          = false) ∧
    (∀ i, i ∉ poppedList sampleSched →
        (clearFlags sampleSched.nodes (poppedList sampleSched))[i]? =
          sampleSched.nodes[i]?) ∧
    sampleSched.pending =
      (drainRest sampleSched).reverse ++ (poppedList sampleSched).reverse) :=
  ⟨by decide, C6_whilePendings_drain sampleSched (by decide)⟩

/-- `_fitExtent` in closed form: component-wise min into the south-west
corner and max into the north-east corner. -/
theorem fitExtent_eq (E : Extent) (ll : LonLat) :
    fitExtent E ll =
      { southWest := ⟨min E.southWest.lon ll.lon, min E.southWest.lat ll.lat⟩,
        northEast := ⟨max E.northEast.lon ll.lon, max E.northEast.lat ll.lat⟩ } := by
  unfold fitExtent
  dsimp only
  split_ifs with h1 h2 h3 h4
  all_goals (
    refine congrArg₂ Extent.mk ?_ ?_ <;>
      refine congrArg₂ LonLat.mk ?_ ?_ <;>
      simp [min_def, max_def] <;>
      (try split_ifs) <;>
      first
        | rfl
        | linarith)

/-- `add` on an already-owned entity (for internal reuse). -/
theorem add_owned_eq (L : VectorLayer) (e : Entity) (rn : Bool)
    (h : e.vectorLayer = true ∨ e.entityCollection = true) :
    add L e rn = .ok (L, []) := by
  unfold add
  rcases h with h | h <;> simp [h]

/-- `add` on a fresh exempt (`lineString`) entity: appended to the flat
list and the always-collection; trees and extent untouched. -/
theorem add_lineString_eq (L : VectorLayer) (e : Entity) (rn : Bool)
    (hv : e.vectorLayer = false) (hc : e.entityCollection = false)
    (hls : e.lineString = true) :
    add L e rn = .ok (addLineStringResult L e, [.entityadd e.id]) := by
  unfold add addLineStringResult
  rw [hv, hc]
  simp [hls, hc, markAdded]

/-- `add` on a fresh non-exempt entity with a planet attached: the entity
is appended to the flat list, the extent is fitted, and the entity goes to
exactly the tree chosen by `routeTree` of its latitude. -/
theorem add_fresh_tree_spec (L : VectorLayer) (e : Entity) (rn : Bool)
    (ll : LonLat)
    (hv : e.vectorLayer = false) (hc : e.entityCollection = false)
    (hls : e.lineString = false) (hll : e.lonlat = some ll)
    (hp : L.hasPlanet = true) :
    ∃ L', add L e rn = .ok (L', [.entityadd e.id]) ∧
      L'.extent = fitExtent L.extent ll ∧
      L'.entities = L.entities ++ [markAdded L e] ∧
      L'.always = L.always ∧
      L'.hasPlanet = true ∧
      L'.tree (routeTree ll.lat) = L.tree (routeTree ll.lat) ++ [markAdded L e] ∧
      (∀ t, t ≠ routeTree ll.lat → L'.tree t = L.tree t) := by
  unfold add markAdded
  rw [hv, hc, hls, hll]
  simp only [Bool.or_self, Bool.false_eq_true, if_false, hp, if_true]
  unfold routeTree
  split_ifs with h1 h2
  · exact ⟨_, rfl, rfl, rfl, rfl, rfl, by simp [VectorLayer.tree],
      fun t ht => by cases t <;> simp_all [VectorLayer.tree]⟩
  · exact ⟨_, rfl, rfl, rfl, rfl, rfl, by simp [VectorLayer.tree],
      fun t ht => by cases t <;> simp_all [VectorLayer.tree]⟩
  · exact ⟨_, rfl, rfl, rfl, rfl, rfl, by simp [VectorLayer.tree],
      fun t ht => by cases t <;> simp_all [VectorLayer.tree]⟩

/-- Folding `_fitExtent` over positions is the component-wise min/max
fold. -/
theorem foldl_fitExtent (lls : List LonLat) : ∀ (E : Extent),
    lls.foldl fitExtent E =
      { southWest := ⟨(lls.map (fun p => p.lon)).foldl min E.southWest.lon,
                      (lls.map (fun p => p.lat)).foldl min E.southWest.lat⟩,
        northEast := ⟨(lls.map (fun p => p.lon)).foldl max E.northEast.lon,
                      (lls.map (fun p => p.lat)).foldl max E.northEast.lat⟩ } := by
  induction lls with
  | nil => intro E; rfl
  | cons ll t ih =>
    intro E
    rw [List.foldl_cons, ih (fitExtent E ll), fitExtent_eq]
    rfl

/-- Seeding a min-fold with a value at most the old seed absorbs it. -/
theorem foldl_min_cons_absorb (c x : ℚ) (l : List ℚ) (h : x ≤ c) :
    (x :: l).foldl min c = l.foldl min x := by
  rw [List.foldl_cons, min_eq_right h]

/-- Seeding a max-fold with a value at least the old seed absorbs it. -/
theorem foldl_max_cons_absorb (c x : ℚ) (l : List ℚ) (h : c ≤ x) :
    (x :: l).foldl max c = l.foldl max x := by
  rw [List.foldl_cons, max_eq_right h]

/-- `_fitExtent` only grows the extent. -/
theorem extentContains_fitExtent (E : Extent) (ll : LonLat) :
    extentContains (fitExtent E ll) E := by
  rw [fitExtent_eq]
  exact ⟨min_le_left _ _, min_le_left _ _, le_max_left _ _, le_max_left _ _⟩

/-- An entity dropped by the non-exempt filter contributes nothing to
`nonExemptLLs`. -/
theorem nonExemptLLs_cons_skip (e : Entity) (rest : List Entity)
    (h : (!e.vectorLayer && !e.entityCollection && !e.lineString) = false) :
    nonExemptLLs (e :: rest) = nonExemptLLs rest := by
  unfold nonExemptLLs
  rw [List.filter_cons_of_neg (by simp [h])]

/-- A fresh non-exempt entity contributes its position to
`nonExemptLLs`. -/
theorem nonExemptLLs_cons_keep (e : Entity) (rest : List Entity)
    (ll : LonLat)
    (hv : e.vectorLayer = false) (hc : e.entityCollection = false)
    (hls : e.lineString = false) (hll : e.lonlat = some ll) :
    nonExemptLLs (e :: rest) = ll :: nonExemptLLs rest := by
  unfold nonExemptLLs
  rw [List.filter_cons_of_pos (by simp [hv, hc, hls])]
  simp [hll]

/-- Every position collected by `nonExemptLLs` is a valid coordinate when
every fresh non-exempt entity of the sequence carries one. -/
theorem nonExemptLLs_valid (es : List Entity)
    (hval : ∀ e ∈ es, e.vectorLayer = false → e.entityCollection = false →
      e.lineString = false → ∃ ll, e.lonlat = some ll ∧ validLL ll) :
    ∀ ll ∈ nonExemptLLs es, validLL ll := by
  intro ll hll
  unfold nonExemptLLs at hll
  rw [List.mem_filterMap] at hll
  obtain ⟨e, he, hsome⟩ := hll
  rw [List.mem_filter] at he
  obtain ⟨hes, hpred⟩ := he
  simp only [Bool.and_eq_true, Bool.not_eq_true'] at hpred
  obtain ⟨⟨h1, h2⟩, h3⟩ := hpred
  obtain ⟨ll', hll', hvll⟩ := hval e hes h1 h2 h3
  rw [hll'] at hsome
  cases hsome
  exact hvll

/-- Running a sequence of adds on a planet-attached layer succeeds when
every fresh non-exempt entity has a position, and folds `_fitExtent` over
exactly the fresh non-exempt positions. -/
theorem addAll_extent_fold (es : List Entity) : ∀ (L : VectorLayer),
    L.hasPlanet = true →
    (∀ e ∈ es, e.vectorLayer = false → e.entityCollection = false →
      e.lineString = false → ∃ ll, e.lonlat = some ll) →
    ∃ L', addAll L es = .ok L' ∧
      L'.extent = (nonExemptLLs es).foldl fitExtent L.extent ∧
      L'.hasPlanet = true := by
  induction es with
  | nil => intro L hp _; exact ⟨L, rfl, rfl, hp⟩
  | cons e rest ih =>
    intro L hp hll
    have hrest : ∀ x ∈ rest, x.vectorLayer = false → x.entityCollection = false →
        x.lineString = false → ∃ ll, x.lonlat = some ll :=
      fun x hx => hll x (List.mem_cons_of_mem _ hx)
    by_cases hv : e.vectorLayer = true
    · obtain ⟨L', h1, h2, h3⟩ := ih L hp hrest
      refine ⟨L', ?_, ?_, h3⟩
      · show addAll L (e :: rest) = _
        unfold addAll
        rw [add_owned_eq L e false (Or.inl hv)]
        exact h1
      · rw [h2, nonExemptLLs_cons_skip e rest (by simp [hv])]
    · have hv' : e.vectorLayer = false := by simpa using hv
      by_cases hc : e.entityCollection = true
      · obtain ⟨L', h1, h2, h3⟩ := ih L hp hrest
        refine ⟨L', ?_, ?_, h3⟩
        · show addAll L (e :: rest) = _
          unfold addAll
          rw [add_owned_eq L e false (Or.inr hc)]
          exact h1
        · rw [h2, nonExemptLLs_cons_skip e rest (by simp [hc])]
      · have hc' : e.entityCollection = false := by simpa using hc
        by_cases hls : e.lineString = true
        · obtain ⟨L', h1, h2, h3⟩ := ih (addLineStringResult L e) hp hrest
          refine ⟨L', ?_, ?_, h3⟩
          · show addAll L (e :: rest) = _
            unfold addAll
            rw [add_lineString_eq L e false hv' hc' hls]
            exact h1
          · rw [h2, nonExemptLLs_cons_skip e rest (by simp [hls])]
            rfl
        · have hls' : e.lineString = false := by simpa using hls
          obtain ⟨ll, hlonlat⟩ := hll e (List.mem_cons_self _ _) hv' hc' hls'
          obtain ⟨L₁, hadd, hext, _, _, hpl, _, _⟩ :=
            add_fresh_tree_spec L e false ll hv' hc' hls' hlonlat hp
          obtain ⟨L', h1, h2, h3⟩ := ih L₁ hpl hrest
          refine ⟨L', ?_, ?_, h3⟩
          · show addAll L (e :: rest) = _
            unfold addAll
            rw [hadd]
            exact h1
          · rw [h2, hext,
              nonExemptLLs_cons_keep e rest ll hv' hc' hls' hlonlat,
              List.foldl_cons]

/-- C8: starting from a freshly built index with a planet attached, after
any sequence of adds whose fresh non-exempt entities carry valid
positions, the extent is exactly the component-wise bounding rectangle of
those positions (and stays at its initial value when there are none); and
no single successful `add` ever shrinks the extent. -/
theorem C8_extent_exact_and_monotone (L : VectorLayer) (es : List Entity)
    (hp : L.hasPlanet = true) (hext : L.extent = initExtent)
    (hval : ∀ e ∈ es, e.vectorLayer = false → e.entityCollection = false →
      e.lineString = false → ∃ ll, e.lonlat = some ll ∧ validLL ll) :
    (∃ L', addAll L es = .ok L' ∧
      (∀ ll rest, nonExemptLLs es = ll :: rest →
        L'.extent = boundingRect ll rest) ∧
      (nonExemptLLs es = [] → L'.extent = initExtent)) ∧
    (∀ (L₁ : VectorLayer) (e : Entity) (rn : Bool)
      (out : VectorLayer × List Ev),
      add L₁ e rn = .ok out → extentContains out.1.extent L₁.extent) := by
  constructor
  · obtain ⟨L', h1, h2, _⟩ := addAll_extent_fold es L hp
      (fun e he hv hc hls => (hval e he hv hc hls).imp fun ll h => h.1)
    refine ⟨L', h1, ?_, ?_⟩
    · intro ll rest hcons
      have hvll : validLL ll :=
        nonExemptLLs_valid es hval ll
          (by rw [hcons]; exact List.mem_cons_self _ _)
      obtain ⟨ha, hb, hc2, hd⟩ := hvll
      rw [h2, hext, hcons, List.foldl_cons, fitExtent_eq, foldl_fitExtent]
      unfold boundingRect initExtent
      dsimp only
      rw [min_eq_right hb, min_eq_right hd, max_eq_right ha, max_eq_right hc2]
    · intro hnil
      rw [h2, hnil]
      exact hext
  · intro L₁ e rn out h
    unfold add at h
    dsimp only at h
    split at h
    · injection h with h1
      subst h1
      exact ⟨le_refl _, le_refl _, le_refl _, le_refl _⟩
    · split at h
      · injection h with h1
        subst h1
        exact ⟨le_refl _, le_refl _, le_refl _, le_refl _⟩
      · split at h
        · cases hll : e.lonlat with
          | none =>
            rw [hll] at h
            exact Except.noConfusion h
          | some ll =>
            rw [hll] at h
            dsimp only at h
            split at h
            · injection h with h1
              subst h1
              exact extentContains_fitExtent L₁.extent ll
            · split at h
              · injection h with h1
                subst h1
                exact extentContains_fitExtent L₁.extent ll
              · injection h with h1
                subst h1
                exact extentContains_fitExtent L₁.extent ll
        · injection h with h1
          subst h1
          exact ⟨le_refl _, le_refl _, le_refl _, le_refl _⟩

/-- Witness for C8: one fresh entity at (10, 20); the final extent is its
degenerate bounding rectangle. -/
theorem C8_extent_exact_and_monotone_witness :
    (∃ L', addAll freshLayer [extentEntity] = .ok L' ∧
      (∀ ll rest, nonExemptLLs [extentEntity] = ll :: rest →
        L'.extent = boundingRect ll rest) ∧
      (nonExemptLLs [extentEntity] = [] → L'.extent = initExtent)) ∧
    (∀ (L₁ : VectorLayer) (e : Entity) (rn : Bool)
      (out : VectorLayer × List Ev),
      add L₁ e rn = .ok out → extentContains out.1.extent L₁.extent) :=
  C8_extent_exact_and_monotone freshLayer [extentEntity] rfl rfl
    (by
      intro e he hv hc hls
      rcases List.mem_singleton.mp he with rfl
      exact ⟨⟨10, 20⟩, rfl, by norm_num [validLL]⟩)

/-- What removing the first occurrence does to length and element
counts. -/
theorem removeFirst_spec (l : List ℕ) (x : ℕ) :
    ∀ l', removeFirst l x = some l' →
      l'.length + 1 = l.length ∧
      l'.count x + 1 = l.count x ∧
      ∀ y, y ≠ x → l'.count y = l.count y := by
  induction l with
  | nil => intro l' h; exact Option.noConfusion h
  | cons z zs ih =>
    intro l' h
    unfold removeFirst at h
    by_cases hz : z = x
    · rw [if_pos hz] at h
      cases h
      subst hz
      refine ⟨rfl, by simp [List.count_cons_self], ?_⟩
      intro y hy
      simp [List.count_cons, hy.symm]
    · rw [if_neg hz] at h
      cases hrem : removeFirst zs x with
      | none => rw [hrem] at h; exact Option.noConfusion h
      | some zs' =>
        rw [hrem] at h
        cases h
        obtain ⟨h1, h2, h3⟩ := ih zs' hrem
        refine ⟨by simp [h1.symm], ?_, ?_⟩
        · simp only [List.count_cons]
          omega
        · intro y hy
          simp only [List.count_cons, h3 y hy]

/-- A present element can always be removed. -/
theorem removeFirst_isSome (l : List ℕ) (x : ℕ) :
    x ∈ l → ∃ l', removeFirst l x = some l' := by
  induction l with
  | nil => intro h; exact absurd h (List.not_mem_nil x)
  | cons z zs ih =>
    intro h
    unfold removeFirst
    by_cases hz : z = x
    · exact ⟨zs, by rw [if_pos hz]⟩
    · rcases List.mem_cons.mp h with rfl | hmem
      · exact absurd rfl hz
      · obtain ⟨l', hl'⟩ := ih hmem
        exact ⟨z :: l', by rw [if_neg hz, hl']; rfl⟩

/-- What the backwards `splice` scan does to length and element counts. -/
theorem removeLast_spec (l : List ℕ) (x : ℕ) :
    ∀ l', removeLast l x = some l' →
      l'.length + 1 = l.length ∧
      l'.count x + 1 = l.count x ∧
      ∀ y, y ≠ x → l'.count y = l.count y := by
  intro l' h
  unfold removeLast at h
  cases hrf : removeFirst l.reverse x with
  | none => rw [hrf] at h; exact Option.noConfusion h
  | some m =>
    rw [hrf] at h
    cases h
    obtain ⟨h1, h2, h3⟩ := removeFirst_spec l.reverse x m hrf
    refine ⟨?_, ?_, ?_⟩
    · rw [List.length_reverse] at h1 ⊢
      exact h1
    · rw [List.count_reverse] at h2 ⊢
      exact h2
    · intro y hy
      have hcy := h3 y hy
      rw [List.count_reverse] at hcy
      rw [List.count_reverse]
      exact hcy

/-- The backwards scan succeeds on any buffer containing the id. -/
theorem removeLast_isSome (l : List ℕ) (x : ℕ) (h : x ∈ l) :
    ∃ l', removeLast l x = some l' := by
  obtain ⟨m, hm⟩ := removeFirst_isSome l.reverse x (List.mem_reverse.mpr h)
  exact ⟨m.reverse, by unfold removeLast; rw [hm]; rfl⟩

/-- Under well-formed parent pointers, every ancestor index is at most the
starting index. -/
theorem chainList_le (fuel : ℕ) : ∀ (nodes : List QNode) (i : ℕ),
    wfParents nodes → ∀ j ∈ chainList nodes (some i) fuel, j ≤ i := by
  induction fuel with
  | zero => intro nodes i hwf j hj; simp [chainList] at hj
  | succ fuel ih =>
    intro nodes i hwf j hj
    unfold chainList at hj
    cases hnd : nodes[i]? with
    | none => rw [hnd] at hj; simp at hj
    | some nd =>
      rw [hnd] at hj
      rcases List.mem_cons.mp hj with rfl | hj'
      · exact le_refl j
      · cases hp : nd.parentNode with
        | none => rw [hp] at hj'; simp [chainList] at hj'
        | some p =>
          rw [hp] at hj'
          exact le_trans (ih nodes p hwf j hj')
            (le_of_lt (hwf i nd p hnd hp))

/-- An absent start yields an empty walk regardless of fuel. -/
theorem chainList_none (nodes : List QNode) (fuel : ℕ) :
    chainList nodes none fuel = [] := by
  cases fuel <;> rfl

/-- Overwriting a node above the walk's start does not change the walk. -/
theorem chainList_set_lt (fuel : ℕ) : ∀ (nodes : List QNode) (k : ℕ)
    (x : QNode) (i : ℕ), wfParents nodes → i < k →
    chainList (nodes.set k x) (some i) fuel =
      chainList nodes (some i) fuel := by
  induction fuel with
  | zero => intro nodes k x i hwf hik; rfl
  | succ fuel ih =>
    intro nodes k x i hwf hik
    unfold chainList
    rw [List.getElem?_set_ne (by omega : k ≠ i)]
    cases hnd : nodes[i]? with
    | none => rfl
    | some nd =>
      dsimp only
      cases hp : nd.parentNode with
      | none => rw [chainList_none, chainList_none]
      | some p =>
        rw [ih nodes k x p hwf (lt_trans (hwf i nd p hnd hp) hik)]

/-- Replacing a node by one with the same parent pointer keeps the parent
structure well-formed. -/
theorem wfParents_set (nodes : List QNode) (k : ℕ) (x nd : QNode)
    (hnd : nodes[k]? = some nd) (hpar : x.parentNode = nd.parentNode)
    (hwf : wfParents nodes) : wfParents (nodes.set k x) := by
  intro j m p hm hp
  rcases eq_or_ne j k with rfl | hne
  · have hlt : j < nodes.length := by
      by_contra hge
      rw [List.getElem?_eq_none (le_of_not_lt hge)] at hnd
      exact Option.noConfusion hnd
    rw [List.getElem?_set_eq_of_lt _ hlt] at hm
    cases hm
    exact hwf j nd p hnd (by rw [← hpar]; exact hp)
  · rw [List.getElem?_set_ne (fun h => hne h.symm)] at hm
    exact hwf j m p hm hp

/-- Replacing the start node by one with the same parent pointer does not
change the walk. -/
theorem chainList_set_self (fuel : ℕ) (nodes : List QNode) (i : ℕ)
    (x nd : QNode) (hnd : nodes[i]? = some nd)
    (hpar : x.parentNode = nd.parentNode) (hwf : wfParents nodes) :
    chainList (nodes.set i x) (some i) fuel =
      chainList nodes (some i) fuel := by
  cases fuel with
  | zero => rfl
  | succ fuel =>
    unfold chainList
    have hlt : i < nodes.length := by
      by_contra hge
      rw [List.getElem?_eq_none (le_of_not_lt hge)] at hnd
      exact Option.noConfusion hnd
    rw [List.getElem?_set_eq_of_lt _ hlt, hnd]
    dsimp only
    rw [hpar]
    cases hp : nd.parentNode with
    | none => rw [chainList_none, chainList_none]
    | some p =>
      rw [chainList_set_lt fuel nodes i x p hwf (hwf i nd p hnd hp)]

/-- The walk starts at its own node (with any positive fuel). -/
theorem chainList_head (nodes : List QNode) (i fuel : ℕ) (nd : QNode)
    (hnd : nodes[i]? = some nd) (hfuel : 1 ≤ fuel) :
    i ∈ chainList nodes (some i) fuel := by
  cases fuel with
  | zero => omega
  | succ fuel =>
    unfold chainList
    rw [hnd]
    exact List.mem_cons_self _ _

/-- Exhausted or absent start: the decrement walk changes nothing. -/
theorem decChain_none (nodes : List QNode) (fuel : ℕ) :
    decChain nodes none fuel = nodes := by
  cases fuel <;> rfl

/-- Full characterization of the ancestor-count decrement walk: every node
on the walk has its `count` decremented by one exactly once; every other
node is untouched. -/
theorem decChain_spec (fuel : ℕ) : ∀ (nodes : List QNode) (i : ℕ),
    wfParents nodes → i < nodes.length → i + 1 ≤ fuel →
    ∀ j, (decChain nodes (some i) fuel)[j]? =
      if j ∈ chainList nodes (some i) fuel then
        (nodes[j]?).map (fun m => { m with count := m.count - 1 })
      else nodes[j]? := by
  induction fuel with
  | zero => intro nodes i hwf hlt hfuel; exact absurd hfuel (by omega)
  | succ fuel ih =>
    intro nodes i hwf hlt hfuel j
    unfold decChain chainList
    cases hnd : nodes[i]? with
    | none =>
      rw [List.getElem?_eq_none_iff] at hnd
      omega
    | some nd =>
      dsimp only
      cases hp : nd.parentNode with
      | none =>
        rw [chainList_none, decChain_none]
        rcases eq_or_ne j i with rfl | hne
        · rw [List.getElem?_set_eq_of_lt _ hlt, hnd,
            if_pos (List.mem_singleton.mpr rfl)]
          simp [hp]
        · rw [List.getElem?_set_ne (fun h => hne h.symm),
            if_neg (by simp [hne])]
      | some p =>
        have hpi : p < i := hwf i nd p hnd hp
        have hwf' : wfParents (nodes.set i
            { count := nd.count - 1, deferredEntities := nd.deferredEntities,
              parentNode := some p, hasCollection := nd.hasCollection }) :=
          wfParents_set nodes i _ nd hnd hp.symm hwf
        have hrec := ih (nodes.set i
            { count := nd.count - 1, deferredEntities := nd.deferredEntities,
              parentNode := some p, hasCollection := nd.hasCollection }) p hwf'
          (by rw [List.length_set]; omega) (by omega) j
        rw [hrec, chainList_set_lt fuel nodes i _ p hwf hpi]
        rcases eq_or_ne j i with rfl | hne
        · have hnotin : j ∉ chainList nodes (some p) fuel := fun hmem =>
            absurd (chainList_le fuel nodes p hwf j hmem) (by omega)
          rw [if_neg hnotin, if_pos (List.mem_cons_self _ _),
            List.getElem?_set_eq_of_lt _ hlt, hnd]
          simp [hp]
        · rw [List.getElem?_set_ne (fun h => hne h.symm)]
          by_cases hmem : j ∈ chainList nodes (some p) fuel
          · rw [if_pos hmem, if_pos (List.mem_cons_of_mem _ hmem)]
          · rw [if_neg hmem, if_neg (by simp [hne, hmem])]

/-- C7: removing an entity that sits only in a node's `deferredEntities`
buffer (its collection never materialized) cancels it: exactly the buffer
element with the entity's id is removed (so a later `applyCollection` of
that buffer cannot contain it), the node's and every ancestor's `count`
drops by one, every node off the ancestor chain is untouched, and the
entity is spliced out of the flat list. -/
theorem C7_remove_deferred_cancellation (S : RemState) (e : RemEntity)
    (i : ℕ) (nd : QNode)
    (hwf : wfParents S.nodes)
    (hown : e.ownedByThisLayer = true)
    (hcoll : e.inEntityCollection = false)
    (hptr : e.nodePtr = some i)
    (hnd : S.nodes[i]? = some nd)
    (hcnt : nd.deferredEntities.count e.id = 1) :
    ∃ nd', (removeEntity S e).nodes[i]? = some nd' ∧
      e.id ∉ nd'.deferredEntities ∧
      e.id ∉ applyCollectionIds nd' ∧
      nd'.deferredEntities.length + 1 = nd.deferredEntities.length ∧
      (∀ y, y ≠ e.id →
        nd'.deferredEntities.count y = nd.deferredEntities.count y) ∧
      nd'.count = nd.count - 1 ∧
      nd'.parentNode = nd.parentNode ∧
      nd'.hasCollection = nd.hasCollection ∧
      (∀ j, j ≠ i →
        (removeEntity S e).nodes[j]? =
          if j ∈ chainList S.nodes (some i) S.nodes.length then
            (S.nodes[j]?).map (fun m => { m with count := m.count - 1 })
          else S.nodes[j]?) ∧
      (removeEntity S e).entityIds =
        spliceAt S.entityIds e.vectorLayerIndex := by
  have hmem : e.id ∈ nd.deferredEntities :=
    List.count_pos_iff.mp (by rw [hcnt]; norm_num)
  have hne0 : nd.deferredEntities.length ≠ 0 := by
    intro h0
    rw [List.length_eq_zero] at h0
    rw [h0] at hmem
    exact List.not_mem_nil _ hmem
  obtain ⟨buf, hbuf⟩ := removeLast_isSome nd.deferredEntities e.id hmem
  obtain ⟨hlen, hcntx, hcnty⟩ := removeLast_spec nd.deferredEntities e.id buf hbuf
  have hlt : i < S.nodes.length := by
    by_contra hge
    rw [List.getElem?_eq_none (le_of_not_lt hge)] at hnd
    exact Option.noConfusion hnd
  have hres : removeEntity S e =
      { entityIds := spliceAt S.entityIds e.vectorLayerIndex,
        nodes :=
          decChain (S.nodes.set i { nd with deferredEntities := buf })
            (some i)
            (S.nodes.set i { nd with deferredEntities := buf }).length } := by
    unfold removeEntity
    rw [if_pos hown]
    dsimp only
    rw [if_neg (by rw [hcoll]; simp), hptr]
    dsimp only
    rw [hnd]
    dsimp only
    rw [if_pos hne0, hbuf]
  have hlen₁ : (S.nodes.set i { nd with deferredEntities := buf }).length =
      S.nodes.length := List.length_set S.nodes i _
  have hwf₁ : wfParents (S.nodes.set i { nd with deferredEntities := buf }) :=
    wfParents_set S.nodes i _ nd hnd rfl hwf
  have hspec := decChain_spec
    (S.nodes.set i { nd with deferredEntities := buf }).length
    (S.nodes.set i { nd with deferredEntities := buf }) i hwf₁
    (by rw [hlen₁]; exact hlt) (by rw [hlen₁]; omega)
  have hchain : chainList (S.nodes.set i { nd with deferredEntities := buf })
      (some i) (S.nodes.set i { nd with deferredEntities := buf }).length =
      chainList S.nodes (some i) S.nodes.length := by
    rw [hlen₁]
    exact chainList_set_self S.nodes.length S.nodes i _ nd hnd rfl hwf
  refine ⟨{ count := nd.count - 1, deferredEntities := buf,
            parentNode := nd.parentNode, hasCollection := nd.hasCollection },
    ?_, ?_, ?_, ?_, ?_, rfl, rfl, rfl, ?_, ?_⟩
  · rw [hres]
    dsimp only
    rw [hspec i, if_pos (chainList_head _ i _ { nd with deferredEntities := buf }
        (List.getElem?_set_eq_of_lt _ hlt) (by rw [hlen₁]; omega)),
      List.getElem?_set_eq_of_lt _ hlt]
    rfl
  · refine List.count_eq_zero.mp ?_
    dsimp only
    omega
  · refine List.count_eq_zero.mp ?_
    unfold applyCollectionIds
    dsimp only
    omega
  · exact hlen
  · exact hcnty
  · intro j hne
    rw [hres]
    dsimp only
    rw [hspec j, hchain, List.getElem?_set_ne (fun h => hne h.symm)]
  · rw [hres]

/-- The sample removal store has well-formed parent pointers. -/
theorem remSample_wf : wfParents remSample.nodes := by
  intro j m p hm hp
  rcases j with _ | _ | j
  · rw [show remSample.nodes[0]? = some remNodeRoot from rfl] at hm
    injection hm with h
    subst h
    exact absurd hp (by simp [remNodeRoot])
  · rw [show remSample.nodes[1]? = some remNodeChild from rfl] at hm
    injection hm with h
    subst h
    have hp0 : p = 0 := by simpa [remNodeChild] using hp.symm
    omega
  · rw [show remSample.nodes[j + 2]? = none from rfl] at hm
    exact Option.noConfusion hm

/-- Witness for C7: cancelling entity 5 out of the child's buffer empties
it and decrements both the child's and the root's counts. -/
theorem C7_remove_deferred_cancellation_witness :
    remEntitySample.ownedByThisLayer = true ∧
    (∃ nd', (removeEntity remSample remEntitySample).nodes[1]? = some nd' ∧
      remEntitySample.id ∉ nd'.deferredEntities ∧
      remEntitySample.id ∉ applyCollectionIds nd' ∧
      nd'.deferredEntities.length + 1 = remNodeChild.deferredEntities.length ∧
      (∀ y, y ≠ remEntitySample.id →
        nd'.deferredEntities.count y = remNodeChild.deferredEntities.count y) ∧
      nd'.count = remNodeChild.count - 1 ∧
      nd'.parentNode = remNodeChild.parentNode ∧
      nd'.hasCollection = remNodeChild.hasCollection ∧
      (∀ j, j ≠ 1 →
        (removeEntity remSample remEntitySample).nodes[j]? =
          if j ∈ chainList remSample.nodes (some 1) remSample.nodes.length
          then
            (remSample.nodes[j]?).map
              (fun m => { m with count := m.count - 1 })
          else remSample.nodes[j]?) ∧
      (removeEntity remSample remEntitySample).entityIds =
        spliceAt remSample.entityIds remEntitySample.vectorLayerIndex) :=
  ⟨rfl, C7_remove_deferred_cancellation remSample remEntitySample 1
    remNodeChild remSample_wf rfl rfl rfl rfl (by decide)⟩
